import Mathlib

/-!
Verification of the orchestration core of the eks-oss-observability repository:
configuration resolution (`stack-config.ts`), cross-stack export/import
(`CrossStackUtils` and the CloudFormation-backed export registry described in
the design), deployment-unit ordering, and the pipeline-document template
substitution performed in `observability-stack.ts`.

The embedding is shallow: TypeScript records become structures, optional
fields become `Option`, JavaScript string `replace` becomes an explicit
recursive function on character lists, and `throw` becomes `Except.error`.
-/

namespace EksObs

/-! ## Configuration (`stack-config.ts`) -/

/-- The `StackConfig` interface: environment and region are mandatory, the
remaining fields optional (`undefined` is `none`).  `nodeCount` is an `Int`
so that the validator's treatment of zero and negative counts can be
examined. -/
structure StackConfig where
  environment : String
  region : String
  vpcCidr : Option String
  eksVersion : Option String
  nodeInstanceType : Option String
  nodeCount : Option Int
deriving DecidableEq, Repr

/-- A `Partial<StackConfig>` as passed for `overrides`: every field may be
absent. -/
structure PartialConfig where
  vpcCidr : Option String
  eksVersion : Option String
  nodeInstanceType : Option String
  nodeCount : Option Int
deriving DecidableEq, Repr

/-- The empty overrides record `{}`. -/
def emptyOverrides : PartialConfig := ⟨none, none, none, none⟩

/-- `DEFAULT_CONFIG` from `stack-config.ts`: `vpcCidr` left undefined,
`eksVersion` 1.31, `nodeInstanceType` t3.large, `nodeCount` 3. -/
def DEFAULT_CONFIG : PartialConfig :=
  ⟨none, some "1.31", some "t3.large", some 3⟩

/-- Object-spread semantics for one optional field: `{...base, ...override}`
keeps the override's binding when the key is present. -/
def spreadField {α : Type} (base override : Option α) : Option α :=
  match override with
  | some v => some v
  | none => base

/-- `ConfigLoader.loadConfig`: builds `baseConfig` by spreading
`DEFAULT_CONFIG` then `overrides` over `{environment, region}`, then the
`switch (environment)` replaces `nodeInstanceType` and `nodeCount` with the
environment-specific values; the `'dev'` case and the `default` case share one
branch. -/
def loadConfig (environment region : String) (overrides : PartialConfig) : StackConfig :=
  let baseConfig : StackConfig :=
    ⟨environment, region,
      spreadField DEFAULT_CONFIG.vpcCidr overrides.vpcCidr,
      spreadField DEFAULT_CONFIG.eksVersion overrides.eksVersion,
      spreadField DEFAULT_CONFIG.nodeInstanceType overrides.nodeInstanceType,
      spreadField DEFAULT_CONFIG.nodeCount overrides.nodeCount⟩
  if environment = "prod" then
    ⟨baseConfig.environment, baseConfig.region, baseConfig.vpcCidr,
      baseConfig.eksVersion, some "t3.xlarge", some 5⟩
  else if environment = "staging" then
    ⟨baseConfig.environment, baseConfig.region, baseConfig.vpcCidr,
      baseConfig.eksVersion, some "t3.large", some 3⟩
  else
    ⟨baseConfig.environment, baseConfig.region, baseConfig.vpcCidr,
      baseConfig.eksVersion, some "t3.medium", some 2⟩

/-- `ConfigLoader.validateConfig`.  `!config.environment` is JavaScript
truthiness on a string, i.e. the empty string fails; likewise for `region`.
`config.nodeCount && config.nodeCount < 1` throws only when `nodeCount` is
present, truthy (non-zero), and below one. -/
def validateConfig (config : StackConfig) : Except String Unit :=
  if config.environment = "" then .error "Environment must be specified"
  else if config.region = "" then .error "Region must be specified"
  else
    match config.nodeCount with
    | some n => if n ≠ 0 ∧ n < 1 then .error "Node count must be at least 1" else .ok ()
    | none => .ok ()

/-- `ConfigResolver.resolve` as the repository composes it (`bin` entry
point): `loadConfig` followed by `validateConfig`, the config returned only
when validation passes. -/
def resolve (environment region : String) (overrides : PartialConfig) :
    Except String StackConfig :=
  let config := loadConfig environment region overrides
  match validateConfig config with
  | .error e => .error e
  | .ok _ => .ok config

/-! ## Kubernetes version selection (the two `InfrastructureStack` variants) -/

/-- The EKS Kubernetes versions mentioned by either `InfrastructureStack`
variant. -/
inductive KubernetesVersion where
  | V1_29
  | V1_31
  | V1_32
deriving DecidableEq, Repr

/-- Version mapping of the first `InfrastructureStack` variant:
`config.eksVersion === '1.31' ? V1_31 : V1_29`. -/
def kubernetesVersionA (eksVersion : Option String) : KubernetesVersion :=
  if eksVersion = some "1.31" then .V1_31 else .V1_29

/-- Version mapping of the second `InfrastructureStack` variant:
`config.eksVersion === '1.32' ? V1_32 : V1_31`. -/
def kubernetesVersionB (eksVersion : Option String) : KubernetesVersion :=
  if eksVersion = some "1.32" then .V1_32 else .V1_31

/-- Cluster name template of the first variant: `` `${environment}-eks-cluster` ``. -/
def clusterNameA (environment : String) : String := environment ++ "-eks-cluster"

/-- Cluster name template of the second variant, textually identical. -/
def clusterNameB (environment : String) : String := environment ++ "-eks-cluster"

/-! ## Theorems about configuration resolution -/

/-- C3 counterexample: with `overrides = {nodeCount: 7}` in the `dev`
environment, the resolved config carries `nodeCount = 2` from the environment
table, not the override's 7 — the defaults do not merely fill unset fields. -/
theorem c3_counterexample :
    (loadConfig "dev" "us-east-1" ⟨none, none, none, some 7⟩).nodeCount = some 2 ∧
    resolve "dev" "us-east-1" ⟨none, none, none, some 7⟩ =
      .ok ⟨"dev", "us-east-1", none, some "1.31", some "t3.medium", some 2⟩ ∧
    (some (2 : Int) ≠ some (7 : Int)) := by
  refine ⟨rfl, rfl, by decide⟩

/-- C3 amended: overrides take precedence over the default table only for
`vpcCidr` and `eksVersion`; `nodeInstanceType` and `nodeCount` are set by the
environment switch after the spread, so they are independent of the overrides
record, and `environment`/`region` pass through unchanged. -/
theorem c3_amended (env region : String) (ov : PartialConfig) :
    (loadConfig env region ov).environment = env ∧
    (loadConfig env region ov).region = region ∧
    (∀ v, ov.vpcCidr = some v → (loadConfig env region ov).vpcCidr = some v) ∧
    (ov.vpcCidr = none → (loadConfig env region ov).vpcCidr = DEFAULT_CONFIG.vpcCidr) ∧
    (∀ v, ov.eksVersion = some v → (loadConfig env region ov).eksVersion = some v) ∧
    (ov.eksVersion = none → (loadConfig env region ov).eksVersion = DEFAULT_CONFIG.eksVersion) ∧
    (loadConfig env region ov).nodeCount = (loadConfig env region emptyOverrides).nodeCount ∧
    (loadConfig env region ov).nodeInstanceType =
      (loadConfig env region emptyOverrides).nodeInstanceType := by
  unfold loadConfig spreadField
  split_ifs <;>
    refine ⟨rfl, rfl, ?_, ?_, ?_, ?_, rfl, rfl⟩ <;>
      first
        | (intro v hv; simp only [hv])
        | (intro hv; simp only [hv])

/-- C3 witness: the amended statement at `env = "dev"`, a region, and an
overrides record that sets `vpcCidr` and `nodeCount`. -/
theorem c3_amended_witness :
    (loadConfig "dev" "us-east-1" ⟨some "10.1.0.0/16", none, none, some 7⟩).environment = "dev" ∧
    (loadConfig "dev" "us-east-1" ⟨some "10.1.0.0/16", none, none, some 7⟩).region = "us-east-1" ∧
    (∀ v, (some "10.1.0.0/16" : Option String) = some v →
      (loadConfig "dev" "us-east-1" ⟨some "10.1.0.0/16", none, none, some 7⟩).vpcCidr = some v) ∧
    ((some "10.1.0.0/16" : Option String) = none →
      (loadConfig "dev" "us-east-1" ⟨some "10.1.0.0/16", none, none, some 7⟩).vpcCidr =
        DEFAULT_CONFIG.vpcCidr) ∧
    (∀ v, (none : Option String) = some v →
      (loadConfig "dev" "us-east-1" ⟨some "10.1.0.0/16", none, none, some 7⟩).eksVersion = some v) ∧
    ((none : Option String) = none →
      (loadConfig "dev" "us-east-1" ⟨some "10.1.0.0/16", none, none, some 7⟩).eksVersion =
        DEFAULT_CONFIG.eksVersion) ∧
    (loadConfig "dev" "us-east-1" ⟨some "10.1.0.0/16", none, none, some 7⟩).nodeCount =
      (loadConfig "dev" "us-east-1" emptyOverrides).nodeCount ∧
    (loadConfig "dev" "us-east-1" ⟨some "10.1.0.0/16", none, none, some 7⟩).nodeInstanceType =
      (loadConfig "dev" "us-east-1" emptyOverrides).nodeInstanceType :=
  c3_amended "dev" "us-east-1" ⟨some "10.1.0.0/16", none, none, some 7⟩

/-- C4: claim-side intent is that a zero node count in overrides is rejected;
the code instead returns a config.  At the failing input `("dev",
"us-east-1", {nodeCount: 0})` the environment switch overwrites the zero with
2 before validation, the run succeeds, and even a config built directly with
`nodeCount = 0` passes `validateConfig` because `0` is falsy in the guard. -/
theorem c4_code_behavior :
    resolve "dev" "us-east-1" ⟨none, none, none, some 0⟩ =
      .ok ⟨"dev", "us-east-1", none, some "1.31", some "t3.medium", some 2⟩ ∧
    validateConfig ⟨"dev", "us-east-1", none, some "1.31", some "t3.medium", some 0⟩ =
      .ok () := by
  refine ⟨rfl, rfl⟩

/-- C5 counterexample: the empty string is an environment name outside the
known set, yet `resolve` with a non-empty region and empty overrides fails
instead of succeeding — the universal claim over all environment names is
false. -/
theorem c5_counterexample :
    resolve "" "us-east-1" emptyOverrides = .error "Environment must be specified" := by
  rfl

/-- C5 amended: for every non-empty environment name and non-empty region,
`resolve` with empty overrides succeeds with `nodeCount ≥ 1`, and any name
outside `prod`/`staging` receives exactly the `dev` branch's node count and
instance type. -/
theorem c5_amended (env region : String) (henv : env ≠ "") (hreg : region ≠ "") :
    (∃ c, resolve env region emptyOverrides = .ok c ∧
      ∃ n, c.nodeCount = some n ∧ 1 ≤ n) ∧
    (env ≠ "prod" → env ≠ "staging" →
      (loadConfig env region emptyOverrides).nodeCount =
        (loadConfig "dev" region emptyOverrides).nodeCount ∧
      (loadConfig env region emptyOverrides).nodeInstanceType =
        (loadConfig "dev" region emptyOverrides).nodeInstanceType) := by
  constructor
  · refine ⟨loadConfig env region emptyOverrides, ?_, ?_⟩
    · unfold resolve validateConfig loadConfig
      split_ifs <;> simp_all
    · unfold loadConfig
      split_ifs <;> exact ⟨_, rfl, by decide⟩
  · intro h1 h2
    unfold loadConfig
    split_ifs <;> simp_all

/-- C5 witness: the amended statement at the unknown environment name
`"qa"` and region `"us-east-1"`. -/
theorem c5_amended_witness :
    (∃ c, resolve "qa" "us-east-1" emptyOverrides = .ok c ∧
      ∃ n, c.nodeCount = some n ∧ 1 ≤ n) ∧
    ("qa" ≠ "prod" → "qa" ≠ "staging" →
      (loadConfig "qa" "us-east-1" emptyOverrides).nodeCount =
        (loadConfig "dev" "us-east-1" emptyOverrides).nodeCount ∧
      (loadConfig "qa" "us-east-1" emptyOverrides).nodeInstanceType =
        (loadConfig "dev" "us-east-1" emptyOverrides).nodeInstanceType) :=
  c5_amended "qa" "us-east-1" (by decide) (by decide)

/-- C9: `validateConfig` rejects a config exactly when the environment string
is empty, the region string is empty, or `nodeCount` is present, non-zero,
and below 1; consequently `nodeCount = 0` passes (with non-empty environment
and region), and any negative `nodeCount` is rejected with the message
`Node count must be at least 1`. -/
theorem c9_validate_characterization (c : StackConfig) :
    ((∃ e, validateConfig c = .error e) ↔
      (c.environment = "" ∨ c.region = "" ∨
        ∃ n, c.nodeCount = some n ∧ n ≠ 0 ∧ n < 1)) ∧
    (c.environment ≠ "" → c.region ≠ "" → c.nodeCount = some 0 →
      validateConfig c = .ok ()) ∧
    (∀ n : Int, n < 0 → c.environment ≠ "" → c.region ≠ "" → c.nodeCount = some n →
      validateConfig c = .error "Node count must be at least 1") := by
  refine ⟨?_, ?_, ?_⟩
  · unfold validateConfig
    split_ifs with h1 h2
    · simp [h1]
    · simp [h1, h2]
    · rcases hnc : c.nodeCount with _ | n
      · simp [h1, h2, hnc]
      · by_cases h3 : n ≠ 0 ∧ n < 1 <;> simp [h1, h2, hnc, h3]
  · intro h1 h2 h0
    unfold validateConfig
    simp [h1, h2, h0]
  · intro n hn h1 h2 hnc
    unfold validateConfig
    have : n ≠ 0 ∧ n < 1 := ⟨by omega, by omega⟩
    simp [h1, h2, hnc, this]

/-- C9 witness: the characterization at a config with `nodeCount = -1`,
which is rejected with the node-count message. -/
theorem c9_validate_witness :
    validateConfig ⟨"dev", "us-east-1", none, none, none, some (-1)⟩ =
      .error "Node count must be at least 1" :=
  (c9_validate_characterization ⟨"dev", "us-east-1", none, none, none, some (-1)⟩).2.2
    (-1) (by decide) (by decide) (by decide) rfl

/-- C10: the two `InfrastructureStack` variants agree on the externally
visible identifiers for the default configuration — identical cluster-name
template for every environment, and both choose V1_31 at the default
`eksVersion = "1.31"` — even though the mappings differ elsewhere (first
variant falls back to V1_29, e.g. at `"1.32"` or an absent version; second
maps `"1.32"` to V1_32 and falls back to V1_31). -/
theorem c10_variants_agree :
    (∀ env, clusterNameA env = clusterNameB env) ∧
    DEFAULT_CONFIG.eksVersion = some "1.31" ∧
    kubernetesVersionA (some "1.31") = .V1_31 ∧
    kubernetesVersionB (some "1.31") = .V1_31 ∧
    kubernetesVersionA (some "1.32") = .V1_29 ∧
    kubernetesVersionB (some "1.32") = .V1_32 ∧
    kubernetesVersionA none = .V1_29 ∧
    kubernetesVersionB none = .V1_31 :=
  ⟨fun _ => rfl, rfl, by decide, by decide, by decide, by decide, by decide, by decide⟩

/-! ## Export registry

The repository's `CrossStackUtils` delegates publishing and reading to
CloudFormation exports (`CfnOutput` with `exportName`, `Fn.importValue`),
so the write-once/read-after-write store itself is not in the repository
source; it is modelled from the spec below.  The comma join/split used by
`PrivateSubnetIdsExport` and `importListValue` is repository code and is
embedded directly afterwards. -/

/-- A published registry value: a scalar string or an ordered list of
strings. -/
inductive RegistryValue where
  | scalar (v : String)
  | list (vs : List String)
deriving DecidableEq, Repr

/-- Errors of the export registry. -/
inductive RegistryError where
  | duplicateKey (k : String)
  | unresolvedKey (k : String)
  | typeMismatch (k : String)
deriving DecidableEq, Repr

/-- Modelled from the spec: the ExportRegistry store, a key-to-value mapping
built by `publish`; absent from `src/`, which delegates the store to
CloudFormation's export table.  Represented as an association list, newest
binding first. -/
def ExportRegistry : Type := List (String × RegistryValue)

/-- The registry at the start of a run: nothing published. -/
def emptyRegistry : ExportRegistry := []

/-- Lookup of the stored value for a key, if any. -/
def lookupKey (r : ExportRegistry) (k : String) : Option RegistryValue :=
  match r with
  | [] => none
  | (k', v) :: rest => if k' = k then some v else lookupKey rest k

/-- Modelled from the spec: `ExportRegistry.publish` — fails with
`DuplicateKeyError` if the key already has a value, otherwise records the
binding (write-once). -/
def publish (r : ExportRegistry) (k : String) (v : RegistryValue) :
    Except RegistryError ExportRegistry :=
  match lookupKey r k with
  | some _ => .error (.duplicateKey k)
  | none => .ok ((k, v) :: r)

/-- Modelled from the spec: `ExportRegistry.resolve` — fails with
`UnresolvedKeyError` on a never-published key; a list value requested as a
scalar is a hard type-mismatch failure, not a coercion. -/
def resolveKey (r : ExportRegistry) (k : String) : Except RegistryError String :=
  match lookupKey r k with
  | none => .error (.unresolvedKey k)
  | some (.scalar v) => .ok v
  | some (.list _) => .error (.typeMismatch k)

/-- Modelled from the spec: `ExportRegistry.resolveList` — a plain string
value is returned as a single-element list for ergonomic callers. -/
def resolveList (r : ExportRegistry) (k : String) : Except RegistryError (List String) :=
  match lookupKey r k with
  | none => .error (.unresolvedKey k)
  | some (.scalar v) => .ok [v]
  | some (.list vs) => .ok vs

/-- C6: on a fresh registry the first `publish` of a key succeeds, a second
`publish` of the same key fails with `DuplicateKeyError` and leaves the
stored value unchanged, `resolve` after the first publish returns the
published value, and `resolve` on the never-published key is an
`UnresolvedKeyError`, never a default. -/
theorem c6_registry_write_once (k v w : String) :
    ∃ r', publish emptyRegistry k (.scalar v) = .ok r' ∧
      publish r' k (.scalar w) = .error (.duplicateKey k) ∧
      lookupKey r' k = some (.scalar v) ∧
      resolveKey r' k = .ok v ∧
      resolveKey emptyRegistry k = .error (.unresolvedKey k) := by
  refine ⟨[(k, .scalar v)], rfl, ?_, ?_, ?_, rfl⟩ <;>
    simp [publish, lookupKey, resolveKey]

/-- C6 witness: the write-once behavior at the network VPC-ID key. -/
theorem c6_registry_witness :
    ∃ r', publish emptyRegistry "network-vpc-id" (.scalar "vpc-123") = .ok r' ∧
      publish r' "network-vpc-id" (.scalar "vpc-456") =
        .error (.duplicateKey "network-vpc-id") ∧
      lookupKey r' "network-vpc-id" = some (.scalar "vpc-123") ∧
      resolveKey r' "network-vpc-id" = .ok "vpc-123" ∧
      resolveKey emptyRegistry "network-vpc-id" = .error (.unresolvedKey "network-vpc-id") :=
  c6_registry_write_once "network-vpc-id" "vpc-123" "vpc-456"

/-! ## Comma-joined list exports (`network-stack.ts` / `stack-config.ts`)

`NetworkStack` publishes subnet-ID lists as
`subnets.map(s => s.subnetId).join(',')` and `importListValue` reads them
back with `Fn.split(',', value)`.  JavaScript `join`/`split` semantics on a
one-character separator are embedded on character lists: splitting the empty
string yields `[""]`, not `[]`. -/

/-- Accumulator pass of separator splitting: `acc` holds the current chunk
reversed. -/
def splitCommaAux : List Char → List Char → List (List Char)
  | [], acc => [acc.reverse]
  | c :: t, acc =>
    if c = ',' then acc.reverse :: splitCommaAux t [] else splitCommaAux t (c :: acc)

/-- `value.split(',')` on character lists. -/
def splitComma (s : List Char) : List (List Char) := splitCommaAux s []

/-- `xs.join(',')` on character lists. -/
def joinComma : List (List Char) → List Char
  | [] => []
  | [x] => x
  | x :: y :: t => x ++ ',' :: joinComma (y :: t)

/-- `CrossStackUtils.importListValue`: split the exported string on commas. -/
def importListValue (s : String) : List String :=
  (splitComma s.data).map (fun cs => ⟨cs⟩)

/-- The export side of `PrivateSubnetIdsExport`: publish the list as one
comma-joined string. -/
def exportListValue (xs : List String) : String :=
  ⟨joinComma (xs.map String.data)⟩

/-- Splitting a comma-free chunk followed by anything just moves the chunk
into the accumulator. -/
theorem splitCommaAux_append (a : List Char) (ha : ',' ∉ a) :
    ∀ s acc, splitCommaAux (a ++ s) acc = splitCommaAux s (a.reverse ++ acc) := by
  induction a with
  | nil => intro s acc; rfl
  | cons c a ih =>
    intro s acc
    have hc : c ≠ ',' := fun h => ha (h ▸ List.mem_cons_self c a)
    have ha' : ',' ∉ a := fun h => ha (List.mem_cons_of_mem c h)
    show splitCommaAux (c :: (a ++ s)) acc = _
    rw [show splitCommaAux (c :: (a ++ s)) acc =
        (if c = ',' then acc.reverse :: splitCommaAux (a ++ s) []
          else splitCommaAux (a ++ s) (c :: acc)) from rfl,
      if_neg hc, ih ha' s (c :: acc), List.reverse_cons, List.append_assoc,
      List.singleton_append]

/-- Round trip at the character-list level: splitting a comma-joined
non-empty list of comma-free chunks recovers the chunks. -/
theorem splitComma_joinComma (xs : List (List Char)) (hne : xs ≠ [])
    (h : ∀ x ∈ xs, ',' ∉ x) : splitComma (joinComma xs) = xs := by
  induction xs with
  | nil => cases hne rfl
  | cons x ys ih =>
    cases ys with
    | nil =>
      have hx : ',' ∉ x := h x (List.mem_cons_self x [])
      show splitCommaAux (joinComma [x]) [] = [x]
      have : joinComma [x] = x ++ [] := by simp [joinComma]
      rw [this, splitCommaAux_append x hx]
      simp [splitCommaAux]
    | cons y t =>
      have hx : ',' ∉ x := h x (List.mem_cons_self x (y :: t))
      have hrest : ∀ z ∈ y :: t, ',' ∉ z := fun z hz => h z (List.mem_cons_of_mem x hz)
      show splitCommaAux (joinComma (x :: y :: t)) [] = x :: y :: t
      have hj : joinComma (x :: y :: t) = x ++ ',' :: joinComma (y :: t) := rfl
      rw [hj, splitCommaAux_append x hx]
      simp only [splitCommaAux, if_pos rfl, List.append_nil, List.reverse_reverse]
      exact congrArg (x :: ·) (ih (by simp) hrest)

/-- C8 counterexample: exporting the empty list produces the empty string,
and reading it back yields the one-element list containing the empty string,
not the empty list — the round trip fails on `[]`. -/
theorem c8_counterexample :
    importListValue (exportListValue []) = [""] ∧ ([""] : List String) ≠ [] := by
  exact ⟨rfl, by decide⟩

/-- C8 amended: for every *non-empty* list of strings none of which contains
a comma, the comma-joined export read back with the list-valued import
returns the original list; and a single plain string value read as a list
yields the one-element list containing that string. -/
theorem c8_join_split_roundtrip :
    (∀ xs : List String, xs ≠ [] → (∀ x ∈ xs, ',' ∉ x.data) →
      importListValue (exportListValue xs) = xs) ∧
    (∀ s : String, ',' ∉ s.data → importListValue s = [s]) := by
  constructor
  · intro xs hne h
    have hmapne : xs.map String.data ≠ [] := by
      intro hm; exact hne (List.map_eq_nil_iff.mp hm)
    have hmem : ∀ x ∈ xs.map String.data, ',' ∉ x := by
      intro x hx
      rcases List.mem_map.mp hx with ⟨s, hs, rfl⟩
      exact h s hs
    show (splitComma (joinComma (xs.map String.data))).map (fun cs => (⟨cs⟩ : String)) = xs
    rw [splitComma_joinComma _ hmapne hmem, List.map_map]
    have : (fun cs : List Char => (⟨cs⟩ : String)) ∘ String.data = id := by
      funext s; cases s; rfl
    rw [this, List.map_id]
  · intro s h
    unfold importListValue
    have h2 : splitComma s.data = [s.data] := by
      have h3 := splitCommaAux_append s.data h [] []
      simp only [List.append_nil] at h3
      unfold splitComma
      rw [h3]
      simp [splitCommaAux]
    rw [h2]
    simp

/-- C8 witness: the round trip on `["subnet-a", "subnet-b"]` and the
single-value reading of `"subnet-a"`. -/
theorem c8_join_split_witness :
    importListValue (exportListValue ["subnet-a", "subnet-b"]) = ["subnet-a", "subnet-b"] ∧
    importListValue "subnet-a" = ["subnet-a"] :=
  ⟨c8_join_split_roundtrip.1 ["subnet-a", "subnet-b"] (by decide) (by decide),
    c8_join_split_roundtrip.2 "subnet-a" (by decide)⟩

/-! ## Pipeline-document template substitution (`observability-stack.ts`)

`logsConfig` is built by chaining JavaScript `String.replace` with *string*
patterns — each call substitutes only the first occurrence and leaves the
document unchanged when the pattern is absent; `tracesConfig` uses `/g`
regexes over the same literal tokens, substituting every occurrence.  Neither
path can fail: there is no error channel in the source. -/

/-- JavaScript `String.replace` with a string pattern: substitute the first
occurrence of `pat` by `rep`, or return the input unchanged when `pat` does
not occur (an empty pattern matches at the front). -/
def replaceFirstL (pat rep : List Char) : List Char → List Char
  | [] => if pat = [] then rep else []
  | c :: t =>
    if pat.isPrefixOf (c :: t) then rep ++ (c :: t).drop pat.length
    else c :: replaceFirstL pat rep t

/-- Fuel-indexed body of global replacement; one unit of fuel per character
of the input suffices because every step consumes at least one character. -/
def replaceAllAux (pat rep : List Char) : Nat → List Char → List Char
  | 0, s => s
  | _ + 1, [] => []
  | fuel + 1, c :: t =>
    if pat ≠ [] ∧ pat.isPrefixOf (c :: t) then
      rep ++ replaceAllAux pat rep fuel (t.drop (pat.length - 1))
    else c :: replaceAllAux pat rep fuel t

/-- JavaScript `String.replace` with a `/g` regex over a literal token:
substitute every (left-to-right, non-overlapping) occurrence. -/
def replaceAllL (pat rep s : List Char) : List Char :=
  replaceAllAux pat rep s.length s

/-- Whether `pat` occurs as a contiguous subsequence of `s`. -/
def containsSeq (pat : List Char) : List Char → Bool
  | [] => pat.isPrefixOf []
  | c :: t => pat.isPrefixOf (c :: t) || containsSeq pat t

/-- The `${OPENSEARCH_ENDPOINT}` token. -/
def tokenEndpoint : List Char := "${OPENSEARCH_ENDPOINT}".data

/-- The `${INGESTION_ROLE_ARN}` token. -/
def tokenRoleArn : List Char := "${INGESTION_ROLE_ARN}".data

/-- The `${AWS_REGION}` token. -/
def tokenRegion : List Char := "${AWS_REGION}".data

/-- The two-character opener of placeholder syntax. -/
def placeholderStart : List Char := "$\x7b".data

/-- The `logsConfig` template chain: the file contents with
`${OPENSEARCH_ENDPOINT}` replaced (first occurrence) by the `https://`
prefixed endpoint, then `${INGESTION_ROLE_ARN}` by the role ARN, then
`${AWS_REGION}` by the region. -/
def logsConfigRender (doc domainEndpoint roleArn region : String) : String :=
  ⟨replaceFirstL tokenRegion region.data
    (replaceFirstL tokenRoleArn roleArn.data
      (replaceFirstL tokenEndpoint ("https://" ++ domainEndpoint).data doc.data))⟩

/-- The `tracesConfig` template chain: same tokens and values, but each
`replace` uses a `/g` regex, so every occurrence is substituted. -/
def tracesConfigRender (doc domainEndpoint roleArn region : String) : String :=
  ⟨replaceAllL tokenRegion region.data
    (replaceAllL tokenRoleArn roleArn.data
      (replaceAllL tokenEndpoint ("https://" ++ domainEndpoint).data doc.data))⟩

/-- A string free of the `$` character, hence free of placeholder syntax. -/
def noDollar (s : String) : Prop := '$' ∉ s.data

instance (s : String) : Decidable (noDollar s) :=
  inferInstanceAs (Decidable ('$' ∉ s.data))

/-- Two strings with equal character data are equal. -/
theorem string_eq_of_data {s t : String} (h : s.data = t.data) : s = t := by
  cases s; cases t; exact congrArg String.mk h

/-- A list is a `isPrefixOf`-prefix of itself followed by anything. -/
theorem isPrefixOf_append_self : ∀ p t : List Char, p.isPrefixOf (p ++ t) = true := by
  intro p
  induction p with
  | nil => intro t; simp [List.isPrefixOf]
  | cons c p ih => intro t; simp [List.isPrefixOf, ih]

/-- First-occurrence replacement at a `$`-headed token: when the prefix
before the token has no `$`, the token itself is the first match, whatever
follows. -/
theorem replaceFirstL_dollar (rest rep : List Char) :
    ∀ pre suf : List Char, '$' ∉ pre →
      replaceFirstL ('$' :: rest) rep (pre ++ (('$' :: rest) ++ suf)) =
        pre ++ (rep ++ suf) := by
  intro pre
  induction pre with
  | nil =>
    intro suf _
    show replaceFirstL ('$' :: rest) rep (('$' :: rest) ++ suf) = rep ++ suf
    rw [show (('$' :: rest) ++ suf : List Char) = '$' :: (rest ++ suf) from rfl]
    rw [show replaceFirstL ('$' :: rest) rep ('$' :: (rest ++ suf)) =
        (if ('$' :: rest).isPrefixOf ('$' :: (rest ++ suf)) then
          rep ++ ('$' :: (rest ++ suf)).drop ('$' :: rest).length
        else '$' :: replaceFirstL ('$' :: rest) rep (rest ++ suf)) from rfl]
    rw [show ('$' :: (rest ++ suf) : List Char) = ('$' :: rest) ++ suf from rfl,
      if_pos (isPrefixOf_append_self ('$' :: rest) suf), List.drop_left]
  | cons c pre ih =>
    intro suf hpre
    have hc : c ≠ '$' := fun h => hpre (h ▸ List.mem_cons_self c pre)
    have hpre' : '$' ∉ pre := fun h => hpre (List.mem_cons_of_mem c h)
    show replaceFirstL ('$' :: rest) rep (c :: (pre ++ (('$' :: rest) ++ suf))) =
      c :: (pre ++ (rep ++ suf))
    rw [show replaceFirstL ('$' :: rest) rep (c :: (pre ++ (('$' :: rest) ++ suf))) =
        (if ('$' :: rest).isPrefixOf (c :: (pre ++ (('$' :: rest) ++ suf))) then
          rep ++ (c :: (pre ++ (('$' :: rest) ++ suf))).drop ('$' :: rest).length
        else c :: replaceFirstL ('$' :: rest) rep (pre ++ (('$' :: rest) ++ suf))) from rfl]
    have hnp : ('$' :: rest).isPrefixOf (c :: (pre ++ (('$' :: rest) ++ suf))) = false := by
      simp [List.isPrefixOf, Ne.symm hc]
    rw [hnp]
    simp only [Bool.false_eq_true, if_false]
    exact congrArg (c :: ·) (ih suf hpre')

/-- Replacement of a non-occurring pattern is the identity. -/
theorem replaceFirstL_of_not_contains (pat rep : List Char) (hne : pat ≠ []) :
    ∀ s, containsSeq pat s = false → replaceFirstL pat rep s = s := by
  intro s
  induction s with
  | nil => intro _; simp [replaceFirstL, hne]
  | cons c t ih =>
    intro h
    have h2 : pat.isPrefixOf (c :: t) = false ∧ containsSeq pat t = false := by
      have := h
      simp only [containsSeq, Bool.or_eq_false_iff] at this
      exact this
    show (if pat.isPrefixOf (c :: t) then rep ++ (c :: t).drop pat.length
      else c :: replaceFirstL pat rep t) = c :: t
    rw [h2.1]
    simp only [Bool.false_eq_true, if_false]
    exact congrArg (c :: ·) (ih h2.2)

/-- A `$`-headed pattern cannot occur in a `$`-free string. -/
theorem containsSeq_dollar_eq_false (rest : List Char) :
    ∀ s : List Char, '$' ∉ s → containsSeq ('$' :: rest) s = false := by
  intro s
  induction s with
  | nil => intro _; rfl
  | cons c t ih =>
    intro h
    have hc : c ≠ '$' := fun hc => h (hc ▸ List.mem_cons_self c t)
    have ht : '$' ∉ t := fun hm => h (List.mem_cons_of_mem c hm)
    simp [containsSeq, List.isPrefixOf, Ne.symm hc, ih ht]

/-- Data of a concatenation of strings. -/
theorem data_append (s t : String) : (s ++ t).data = s.data ++ t.data := by
  cases s; cases t; rfl

/-- The full `logsConfig` chain on a document that carries the three tokens
once each, in chain order, separated by `$`-free text, with `$`-free
values: every token is substituted at its (unique) occurrence. -/
theorem logsRender_chars (a₁ a₂ a₃ a₄ v₁ v₂ v₃ : List Char)
    (h₁ : '$' ∉ a₁) (h₂ : '$' ∉ a₂) (h₃ : '$' ∉ a₃)
    (hv₁ : '$' ∉ v₁) (hv₂ : '$' ∉ v₂) :
    replaceFirstL tokenRegion v₃ (replaceFirstL tokenRoleArn v₂
      (replaceFirstL tokenEndpoint v₁
        (a₁ ++ (tokenEndpoint ++ (a₂ ++ (tokenRoleArn ++ (a₃ ++ (tokenRegion ++ a₄)))))))) =
      a₁ ++ (v₁ ++ (a₂ ++ (v₂ ++ (a₃ ++ (v₃ ++ a₄))))) := by
  have hT1 : tokenEndpoint = '$' :: "\x7bOPENSEARCH_ENDPOINT\x7d".data := rfl
  have hT2 : tokenRoleArn = '$' :: "\x7bINGESTION_ROLE_ARN\x7d".data := rfl
  have hT3 : tokenRegion = '$' :: "\x7bAWS_REGION\x7d".data := rfl
  have step1 : replaceFirstL tokenEndpoint v₁
      (a₁ ++ (tokenEndpoint ++ (a₂ ++ (tokenRoleArn ++ (a₃ ++ (tokenRegion ++ a₄)))))) =
      a₁ ++ (v₁ ++ (a₂ ++ (tokenRoleArn ++ (a₃ ++ (tokenRegion ++ a₄))))) := by
    rw [hT1]
    exact replaceFirstL_dollar _ v₁ a₁ _ h₁
  have hpre2 : '$' ∉ a₁ ++ (v₁ ++ a₂) := by
    simp [List.mem_append, h₁, hv₁, h₂]
  have step2 : replaceFirstL tokenRoleArn v₂
      (a₁ ++ (v₁ ++ (a₂ ++ (tokenRoleArn ++ (a₃ ++ (tokenRegion ++ a₄)))))) =
      (a₁ ++ (v₁ ++ a₂)) ++ (v₂ ++ (a₃ ++ (tokenRegion ++ a₄))) := by
    have harg : a₁ ++ (v₁ ++ (a₂ ++ (tokenRoleArn ++ (a₃ ++ (tokenRegion ++ a₄))))) =
        (a₁ ++ (v₁ ++ a₂)) ++ (tokenRoleArn ++ (a₃ ++ (tokenRegion ++ a₄))) := by
      simp [List.append_assoc]
    rw [harg, hT2]
    exact replaceFirstL_dollar _ v₂ _ _ hpre2
  have hpre3 : '$' ∉ (a₁ ++ (v₁ ++ a₂)) ++ (v₂ ++ a₃) := by
    simp [List.mem_append, h₁, hv₁, h₂, hv₂, h₃]
  have step3 : replaceFirstL tokenRegion v₃
      ((a₁ ++ (v₁ ++ a₂)) ++ (v₂ ++ (a₃ ++ (tokenRegion ++ a₄)))) =
      ((a₁ ++ (v₁ ++ a₂)) ++ (v₂ ++ a₃)) ++ (v₃ ++ a₄) := by
    have harg : (a₁ ++ (v₁ ++ a₂)) ++ (v₂ ++ (a₃ ++ (tokenRegion ++ a₄))) =
        ((a₁ ++ (v₁ ++ a₂)) ++ (v₂ ++ a₃)) ++ (tokenRegion ++ a₄) := by
      simp [List.append_assoc]
    rw [harg, hT3]
    exact replaceFirstL_dollar _ v₃ _ _ hpre3
  rw [step1, step2, step3]
  simp [List.append_assoc]

/-- C1 counterexample: a document repeating `${AWS_REGION}` is returned with
only the first occurrence substituted — the chain neither substitutes every
occurrence nor fails, so a partially substituted document reaches the
caller. -/
theorem c1_counterexample :
    logsConfigRender "region: ${AWS_REGION} again ${AWS_REGION}" "ep" "arn" "us-east-1" =
      "region: us-east-1 again ${AWS_REGION}" ∧
    containsSeq placeholderStart
      (logsConfigRender "region: ${AWS_REGION} again ${AWS_REGION}"
        "ep" "arn" "us-east-1").data = true :=
  ⟨rfl, rfl⟩

/-- C1 amended: resolution never fails; the logs chain substitutes only the
first occurrence of each of its three tokens (with the endpoint value
prefixed by `https://`) and the traces chain substitutes every occurrence.
On a document carrying each token exactly once, in chain order, with `$`-free
surrounding text and `$`-free values, the logs result is fully substituted
with no placeholder syntax left; with repeated tokens the traces chain still
substitutes all occurrences. -/
theorem c1_render_first_occurrence :
    (∀ a₁ a₂ a₃ a₄ ep arn reg : String,
      noDollar a₁ → noDollar a₂ → noDollar a₃ →
      noDollar ep → noDollar arn →
      logsConfigRender
          (a₁ ++ "${OPENSEARCH_ENDPOINT}" ++ (a₂ ++ "${INGESTION_ROLE_ARN}" ++
            (a₃ ++ "${AWS_REGION}" ++ a₄))) ep arn reg =
        a₁ ++ "https://" ++ ep ++ (a₂ ++ arn ++ (a₃ ++ reg ++ a₄)) ∧
      (noDollar a₄ → noDollar reg →
        containsSeq placeholderStart
          (logsConfigRender
            (a₁ ++ "${OPENSEARCH_ENDPOINT}" ++ (a₂ ++ "${INGESTION_ROLE_ARN}" ++
              (a₃ ++ "${AWS_REGION}" ++ a₄))) ep arn reg).data = false)) ∧
    tracesConfigRender "e: ${OPENSEARCH_ENDPOINT}, r: ${AWS_REGION}, again: ${AWS_REGION}"
      "os.local" "arn:x" "eu-west-1" =
      "e: https://os.local, r: eu-west-1, again: eu-west-1" := by
  constructor
  · intro a₁ a₂ a₃ a₄ ep arn reg h₁ h₂ h₃ hep harn
    have hv₁ : '$' ∉ ("https://" ++ ep).data := by
      rw [data_append]
      simp only [List.mem_append, not_or]
      exact ⟨by decide, hep⟩
    have hdoc : (a₁ ++ "${OPENSEARCH_ENDPOINT}" ++ (a₂ ++ "${INGESTION_ROLE_ARN}" ++
        (a₃ ++ "${AWS_REGION}" ++ a₄))).data =
        a₁.data ++ (tokenEndpoint ++ (a₂.data ++ (tokenRoleArn ++
          (a₃.data ++ (tokenRegion ++ a₄.data))))) := by
      simp [data_append, tokenEndpoint, tokenRoleArn, tokenRegion, List.append_assoc]
    have hres : (logsConfigRender
        (a₁ ++ "${OPENSEARCH_ENDPOINT}" ++ (a₂ ++ "${INGESTION_ROLE_ARN}" ++
          (a₃ ++ "${AWS_REGION}" ++ a₄))) ep arn reg).data =
        a₁.data ++ (("https://" ++ ep).data ++ (a₂.data ++ (arn.data ++
          (a₃.data ++ (reg.data ++ a₄.data))))) := by
      show replaceFirstL tokenRegion reg.data (replaceFirstL tokenRoleArn arn.data
        (replaceFirstL tokenEndpoint ("https://" ++ ep).data
          (a₁ ++ "${OPENSEARCH_ENDPOINT}" ++ (a₂ ++ "${INGESTION_ROLE_ARN}" ++
            (a₃ ++ "${AWS_REGION}" ++ a₄))).data)) = _
      rw [hdoc]
      exact logsRender_chars a₁.data a₂.data a₃.data a₄.data
        ("https://" ++ ep).data arn.data reg.data h₁ h₂ h₃ hv₁ harn
    constructor
    · apply string_eq_of_data
      rw [hres]
      simp [data_append, List.append_assoc]
    · intro h₄ hreg
      rw [show placeholderStart = '$' :: "\x7b".data from rfl, hres]
      apply containsSeq_dollar_eq_false
      simp only [List.mem_append, not_or, data_append]
      exact ⟨h₁, ⟨by decide, hep⟩, h₂, harn, h₃, hreg, h₄⟩
  · rfl

/-- C1 witness: the logs chain on a concrete one-occurrence-per-token
document is fully substituted and placeholder-free. -/
theorem c1_render_witness :
    logsConfigRender
        ("endpoint: " ++ "${OPENSEARCH_ENDPOINT}" ++ (", role: " ++ "${INGESTION_ROLE_ARN}" ++
          (", region: " ++ "${AWS_REGION}" ++ "."))) "os.local" "arn:x" "eu-west-1" =
      "endpoint: " ++ "https://" ++ "os.local" ++ (", role: " ++ "arn:x" ++
        (", region: " ++ "eu-west-1" ++ ".")) ∧
    (noDollar "." → noDollar "eu-west-1" →
      containsSeq placeholderStart
        (logsConfigRender
          ("endpoint: " ++ "${OPENSEARCH_ENDPOINT}" ++ (", role: " ++ "${INGESTION_ROLE_ARN}" ++
            (", region: " ++ "${AWS_REGION}" ++ "."))) "os.local" "arn:x" "eu-west-1").data
        = false) :=
  c1_render_first_occurrence.1 "endpoint: " ", role: " ", region: " "."
    "os.local" "arn:x" "eu-west-1"
    (by decide) (by decide) (by decide) (by decide) (by decide)

/-- C2 counterexample: a document with the unmapped token `${NOT_PUBLISHED}`
does not fail: the chain returns a document with the unknown token left
verbatim while the known token is still substituted — so it neither raises an
error nor substitutes nothing. -/
theorem c2_counterexample :
    logsConfigRender "e: ${OPENSEARCH_ENDPOINT}, x: ${NOT_PUBLISHED}" "os.local" "arn:x" "r" =
      "e: https://os.local, x: ${NOT_PUBLISHED}" ∧
    containsSeq "${NOT_PUBLISHED}".data
      (logsConfigRender "e: ${OPENSEARCH_ENDPOINT}, x: ${NOT_PUBLISHED}"
        "os.local" "arn:x" "r").data = true :=
  ⟨rfl, rfl⟩

/-- C2 amended: rendering cannot fail; a token whose value is not wired into
the chain is left verbatim.  In particular a document containing none of the
three known tokens is returned completely unchanged, whatever placeholders it
carries. -/
theorem c2_unknown_token_unchanged (doc ep arn reg : String)
    (h1 : containsSeq tokenEndpoint doc.data = false)
    (h2 : containsSeq tokenRoleArn doc.data = false)
    (h3 : containsSeq tokenRegion doc.data = false) :
    logsConfigRender doc ep arn reg = doc := by
  apply string_eq_of_data
  show replaceFirstL tokenRegion reg.data (replaceFirstL tokenRoleArn arn.data
    (replaceFirstL tokenEndpoint ("https://" ++ ep).data doc.data)) = doc.data
  rw [replaceFirstL_of_not_contains tokenEndpoint _ (by decide) doc.data h1,
    replaceFirstL_of_not_contains tokenRoleArn _ (by decide) doc.data h2,
    replaceFirstL_of_not_contains tokenRegion _ (by decide) doc.data h3]

/-- C2 witness: a document whose only placeholder is the unmapped
`${NOT_PUBLISHED}` is returned unchanged. -/
theorem c2_unknown_token_witness :
    logsConfigRender "x: ${NOT_PUBLISHED}" "os.local" "arn:x" "r" = "x: ${NOT_PUBLISHED}" :=
  c2_unknown_token_unchanged "x: ${NOT_PUBLISHED}" "os.local" "arn:x" "r"
    (by decide) (by decide) (by decide)

/-! ## Deployment units and application order

The repository wires its three stacks statically — `InfrastructureStack`
depends on `NetworkStack`, `ObservabilityStack` on both, via
`addDependency` in the CDK app entry point — and leaves the general ordering
algorithm to the CDK/CloudFormation toolchain.  The `DependencyGraph.order`
algorithm itself is therefore modelled from the spec: validate that every
referenced dependency is declared, then repeatedly select the first declared
unit (declaration order breaks ties) whose dependencies have all been
applied; report a cycle when none is selectable. -/

/-- Modelled from the spec: a deployable unit — a stable identifier and the
ordered list of identifiers it depends on. -/
structure DeployUnit where
  id : String
  deps : List String
deriving DecidableEq, Repr

/-- Errors of the ordering pass. -/
inductive GraphError where
  | unknownDependency (d : String)
  | cycle (remaining : List String)
deriving DecidableEq, Repr

/-- The declared identifiers, in declaration order. -/
def unitIds (units : List DeployUnit) : List String := units.map DeployUnit.id

/-- Modelled from the spec: the validation pass — the first dependency
identifier that references no declared unit, if any. -/
def findMissingDep (units : List DeployUnit) : Option String :=
  units.findSome? (fun u => u.deps.find? (fun d => !(unitIds units).contains d))

/-- Modelled from the spec: one selection step — the first unit, in
declaration order, all of whose dependencies are already applied. -/
def selectReady (applied : List String) (remaining : List DeployUnit) : Option DeployUnit :=
  remaining.find? (fun u => u.deps.all (fun d => applied.contains d))

/-- Modelled from the spec: repeated selection; one unit of fuel per
remaining unit suffices since each successful step removes one. -/
def orderLoop : Nat → List String → List DeployUnit → Except GraphError (List String)
  | _, applied, [] => .ok applied
  | 0, _, remaining => .error (.cycle (unitIds remaining))
  | fuel + 1, applied, remaining =>
    match selectReady applied remaining with
    | none => .error (.cycle (unitIds remaining))
    | some u => orderLoop fuel (applied ++ [u.id]) (remaining.erase u)

/-- Modelled from the spec: `DependencyGraph.order` — validate, then select
repeatedly. -/
def order (units : List DeployUnit) : Except GraphError (List String) :=
  match findMissingDep units with
  | some d => .error (.unknownDependency d)
  | none => orderLoop units.length [] units

/-- The dependency relation of a unit list: `x` depends on `y`. -/
def DependsOn (units : List DeployUnit) (x y : String) : Prop :=
  ∃ u ∈ units, u.id = x ∧ y ∈ u.deps

/-- Applied units respect dependencies: every dependency of an applied unit
is applied strictly earlier. -/
def TopoInvariant (units : List DeployUnit) (applied : List String) : Prop :=
  ∀ u ∈ units, u.id ∈ applied →
    ∀ d ∈ u.deps, d ∈ applied ∧ applied.indexOf d < applied.indexOf u.id

/-- The example of `§8` of the design: units `A`, `B: [A]`, `C: [B]`. -/
def exampleUnits : List DeployUnit := [⟨"A", []⟩, ⟨"B", ["A"]⟩, ⟨"C", ["B"]⟩]

/-- The repository's concrete unit set, as wired in the CDK app entry point:
`network` with no dependencies, `infrastructure` depending on `network`, and
`observability` depending on both. -/
def deployUnits : List DeployUnit :=
  [⟨"network", []⟩, ⟨"infrastructure", ["network"]⟩,
    ⟨"observability", ["network", "infrastructure"]⟩]

/-- A rank function decreasing along edges rules out dependency cycles. -/
theorem acyclic_of_rank (units : List DeployUnit) (rank : String → Nat)
    (h : ∀ x y, DependsOn units x y → rank y < rank x) :
    ¬ ∃ s, Relation.TransGen (DependsOn units) s s := by
  rintro ⟨s, hs⟩
  have hlt : ∀ a b, Relation.TransGen (DependsOn units) a b → rank b < rank a := by
    intro a b hab
    induction hab with
    | single h1 => exact h _ _ h1
    | tail _ h2 ih => exact lt_trans (h _ _ h2) ih
  exact absurd (hlt s s hs) (lt_irrefl _)

/-- Pigeonhole on iterated successors: if every element of a finite nonempty
set has an `E`-successor inside the set, `E` has a cycle. -/
theorem exists_transGen_cycle (E : String → String → Prop) (R : Finset String)
    (hne : R.Nonempty) (hsucc : ∀ x ∈ R, ∃ y ∈ R, E x y) :
    ∃ s, Relation.TransGen E s s := by
  classical
  choose f hfR hfE using hsucc
  set g : String → String := fun x => if hx : x ∈ R then f x hx else x with hg
  have hgR : ∀ x ∈ R, g x ∈ R := by
    intro x hx
    simp only [hg, dif_pos hx]
    exact hfR x hx
  have hgE : ∀ x ∈ R, E x (g x) := by
    intro x hx
    simp only [hg, dif_pos hx]
    exact hfE x hx
  obtain ⟨x₀, hx₀⟩ := hne
  have hstay : ∀ n x, x ∈ R → g^[n] x ∈ R := by
    intro n
    induction n with
    | zero => intro x hx; simpa using hx
    | succ n ih =>
      intro x hx
      rw [Function.iterate_succ_apply']
      exact hgR _ (ih x hx)
  have hchain : ∀ n x, x ∈ R → 0 < n → Relation.TransGen E x (g^[n] x) := by
    intro n
    induction n with
    | zero => intro x _ h0; omega
    | succ n ih =>
      intro x hx _
      rcases Nat.eq_zero_or_pos n with h0 | hpos
      · subst h0
        simpa using Relation.TransGen.single (hgE x hx)
      · have step : E (g^[n] x) (g^[n + 1] x) := by
          rw [Function.iterate_succ_apply']
          exact hgE _ (hstay n x hx)
        exact Relation.TransGen.tail (ih x hx hpos) step
  have hcard : R.card < (Finset.range (R.card + 1)).card := by simp
  obtain ⟨i, _, j, _, hij, heq⟩ :=
    Finset.exists_ne_map_eq_of_card_lt_of_maps_to hcard
      (fun k _ => hstay k x₀ hx₀)
  rcases Nat.lt_or_ge i j with hlt | hge
  · refine ⟨g^[i] x₀, ?_⟩
    have hcyc := hchain (j - i) (g^[i] x₀) (hstay i x₀ hx₀) (by omega)
    have hback : g^[j - i] (g^[i] x₀) = g^[i] x₀ := by
      rw [← Function.iterate_add_apply, Nat.sub_add_cancel (le_of_lt hlt)]
      exact heq.symm
    rwa [hback] at hcyc
  · have hlt' : j < i := by omega
    refine ⟨g^[j] x₀, ?_⟩
    have hcyc := hchain (i - j) (g^[j] x₀) (hstay j x₀ hx₀) (by omega)
    have hback : g^[i - j] (g^[j] x₀) = g^[j] x₀ := by
      rw [← Function.iterate_add_apply, Nat.sub_add_cancel (le_of_lt hlt')]
      exact heq
    rwa [hback] at hcyc

/-- The selection loop succeeds on acyclic well-formed input, consumes
exactly the remaining identifiers, and maintains the topological
invariant. -/
theorem orderLoop_total (units : List DeployUnit)
    (hnd : (unitIds units).Nodup)
    (hwf : ∀ u ∈ units, ∀ d ∈ u.deps, d ∈ unitIds units)
    (hacyc : ¬ ∃ s, Relation.TransGen (DependsOn units) s s) :
    ∀ fuel applied remaining,
      remaining.length ≤ fuel →
      (∀ u ∈ remaining, u ∈ units) →
      (applied ++ unitIds remaining).Perm (unitIds units) →
      TopoInvariant units applied →
      ∃ result, orderLoop fuel applied remaining = .ok result ∧
        result.Perm (unitIds units) ∧ TopoInvariant units result := by
  intro fuel
  induction fuel with
  | zero =>
    intro applied remaining hlen hsub hperm hinv
    have hrem : remaining = [] := List.length_eq_zero.mp (Nat.le_zero.mp hlen)
    subst hrem
    exact ⟨applied, rfl, by simpa [unitIds] using hperm, hinv⟩
  | succ fuel ih =>
    intro applied remaining hlen hsub hperm hinv
    cases remaining with
    | nil => exact ⟨applied, rfl, by simpa [unitIds] using hperm, hinv⟩
    | cons r rs =>
      rcases hsel : selectReady applied (r :: rs) with _ | u
      · exfalso
        have hall := List.find?_eq_none.mp hsel
        apply hacyc
        apply exists_transGen_cycle (DependsOn units) (unitIds (r :: rs)).toFinset
        · exact ⟨r.id, by simp [unitIds]⟩
        · intro x hx
          rw [List.mem_toFinset] at hx
          obtain ⟨v, hv_mem, hv_id⟩ := List.mem_map.mp hx
          have hv_units : v ∈ units := hsub v hv_mem
          have hv_bad := hall v hv_mem
          rw [List.all_eq_true] at hv_bad
          push_neg at hv_bad
          obtain ⟨d, hd_mem, hd_not⟩ := hv_bad
          have hd_napp : d ∉ applied := by simpa using hd_not
          have hd_units : d ∈ unitIds units := hwf v hv_units d hd_mem
          have hd_rem : d ∈ unitIds (r :: rs) := by
            have hd_both : d ∈ applied ++ unitIds (r :: rs) := hperm.mem_iff.mpr hd_units
            rcases List.mem_append.mp hd_both with h | h
            · exact absurd h hd_napp
            · exact h
          exact ⟨d, List.mem_toFinset.mpr hd_rem, v, hv_units, hv_id, hd_mem⟩
      · have hu_rem : u ∈ r :: rs := List.mem_of_find?_eq_some hsel
        have hu_units : u ∈ units := hsub u hu_rem
        have hu_ready : ∀ d ∈ u.deps, d ∈ applied := by
          have hfind := List.find?_some hsel
          rw [List.all_eq_true] at hfind
          intro d hd
          simpa using hfind d hd
        have hnd_state : (applied ++ unitIds (r :: rs)).Nodup := hperm.symm.nodup hnd
        have hdisj := (List.nodup_append.mp hnd_state).2.2
        have hu_id_rem : u.id ∈ unitIds (r :: rs) := List.mem_map_of_mem DeployUnit.id hu_rem
        have hu_nap : u.id ∉ applied := fun hmem => hdisj hmem hu_id_rem
        have hperm_units : (r :: rs).Perm (u :: (r :: rs).erase u) := List.perm_cons_erase hu_rem
        have hperm_ids : (unitIds (r :: rs)).Perm (u.id :: unitIds ((r :: rs).erase u)) :=
          hperm_units.map DeployUnit.id
        have hperm' : ((applied ++ [u.id]) ++ unitIds ((r :: rs).erase u)).Perm (unitIds units) := by
          have h1 : (applied ++ [u.id]) ++ unitIds ((r :: rs).erase u)
              = applied ++ (u.id :: unitIds ((r :: rs).erase u)) := by simp
          rw [h1]
          exact List.Perm.trans (List.Perm.append_left applied hperm_ids.symm) hperm
        have hlen' : ((r :: rs).erase u).length ≤ fuel := by
          rw [List.length_erase_of_mem hu_rem]
          simp only [List.length_cons] at hlen ⊢
          omega
        have hsub' : ∀ v ∈ (r :: rs).erase u, v ∈ units :=
          fun v hv => hsub v (List.erase_subset u (r :: rs) hv)
        have hinv' : TopoInvariant units (applied ++ [u.id]) := by
          intro v hv_units hv_in d hd
          rcases List.mem_append.mp hv_in with hv_app | hv_single
          · obtain ⟨hd_app, hd_lt⟩ := hinv v hv_units hv_app d hd
            refine ⟨List.mem_append_left _ hd_app, ?_⟩
            rw [List.indexOf_append_of_mem hd_app, List.indexOf_append_of_mem hv_app]
            exact hd_lt
          · have hv_eq : v.id = u.id := by simpa using hv_single
            have hv_u : v = u := List.inj_on_of_nodup_map hnd hv_units hu_units hv_eq
            subst hv_u
            have hd_app : d ∈ applied := hu_ready d hd
            refine ⟨List.mem_append_left _ hd_app, ?_⟩
            rw [List.indexOf_append_of_mem hd_app,
              List.indexOf_append_of_not_mem hu_nap, List.indexOf_cons_self]
            have := List.indexOf_lt_length.mpr hd_app
            omega
        obtain ⟨result, hres, hp, hi⟩ :=
          ih (applied ++ [u.id]) ((r :: rs).erase u) hlen' hsub' hperm' hinv'
        refine ⟨result, ?_, hp, hi⟩
        rw [show orderLoop (fuel + 1) applied (r :: rs) =
            (match selectReady applied (r :: rs) with
            | none => .error (.cycle (unitIds (r :: rs)))
            | some u => orderLoop fuel (applied ++ [u.id]) ((r :: rs).erase u)) from rfl]
        rw [hsel]
        exact hres

/-- C7: on every unit list with distinct identifiers, dependencies that
reference only declared units, and an acyclic dependency relation, `order`
returns exactly the declared identifiers in an order placing every unit
after all its dependencies (selection scans in declaration order, which is
the tie-break); in particular `{A: [], B: [A], C: [B]}` yields `[A, B, C]`,
two independent units keep declaration order, and the repository's unit set
orders network before infrastructure before observability. -/
theorem c7_topological_order :
    (∀ units : List DeployUnit,
      (unitIds units).Nodup →
      (∀ u ∈ units, ∀ d ∈ u.deps, d ∈ unitIds units) →
      (¬ ∃ s, Relation.TransGen (DependsOn units) s s) →
      ∃ result, order units = .ok result ∧ result.Perm (unitIds units) ∧
        ∀ u ∈ units, ∀ d ∈ u.deps, result.indexOf d < result.indexOf u.id) ∧
    order exampleUnits = .ok ["A", "B", "C"] ∧
    order [⟨"A", []⟩, ⟨"B", []⟩] = .ok ["A", "B"] ∧
    order deployUnits = .ok ["network", "infrastructure", "observability"] := by
  refine ⟨?_, rfl, rfl, rfl⟩
  intro units hnd hwf hacyc
  have hmiss : findMissingDep units = none := by
    unfold findMissingDep
    rw [List.findSome?_eq_none_iff]
    intro u hu
    rw [List.find?_eq_none]
    intro d hd
    simpa using hwf u hu d hd
  obtain ⟨result, hres, hp, hi⟩ :=
    orderLoop_total units hnd hwf hacyc units.length [] units
      (le_refl _) (fun u hu => hu) (by simp)
      (fun u _ h => absurd h (List.not_mem_nil _))
  refine ⟨result, ?_, hp, ?_⟩
  · show (match findMissingDep units with
      | some d => Except.error (GraphError.unknownDependency d)
      | none => orderLoop units.length [] units) = Except.ok result
    rw [hmiss]
    exact hres
  · intro u hu d hd
    have hid : u.id ∈ result := hp.mem_iff.mpr (List.mem_map_of_mem DeployUnit.id hu)
    exact (hi u hu hid d hd).2

/-- A topological numbering of the `§8` example: `A` before `B` before `C`. -/
def exampleRank : String → Nat :=
  fun s => if s = "A" then 0 else if s = "B" then 1 else 2

/-- C7 witness: the general part of the ordering theorem applied to the
concrete example unit set, its acyclicity discharged by the explicit rank. -/
theorem c7_topological_witness :
    ∃ result, order exampleUnits = .ok result ∧ result.Perm (unitIds exampleUnits) ∧
      ∀ u ∈ exampleUnits, ∀ d ∈ u.deps, result.indexOf d < result.indexOf u.id :=
  c7_topological_order.1 exampleUnits (by decide) (by decide)
    (acyclic_of_rank exampleUnits exampleRank (by
      rintro x y ⟨u, hu, rfl, hy⟩
      simp only [exampleUnits, List.mem_cons, List.not_mem_nil, or_false] at hu
      rcases hu with rfl | rfl | rfl
      · simp at hy
      · simp only [List.mem_singleton] at hy
        subst hy
        decide
      · simp only [List.mem_singleton] at hy
        subst hy
        decide))

end EksObs
